import Mathlib

/-!
Verification of the Marlowe contract-language interpreter of this repository
(marlowe-ts-sdk).

The source tree at hand contains the callers of the semantics module
(`examples/nodejs/src/applicable-inputs.ts` imports `evalValue`,
`evalObservation`, `reduceContractUntilQuiescent`, `applyAllInputs`, ... from
`@marlowe.io/language-core-v1/semantics`), the browser CIP30 wallet adapter,
and the metadata Blueprint codec.  The semantics module itself
(`packages/language/core/v1/src/semantics`) is code of this repository that is
not present here, so the semantics definitions below are modelled from the
specification text (sections 3, 4.1, 4.2, 4.3 and 7 of spec.md); each such
definition carries a doc comment saying so.  The wallet adapter and the
Blueprint codec are embedded directly from their sources.
-/

namespace Marlowe

/-- Modelled from the spec (section 3, Token): asset identifier, policy plus
name.  The distinguished native-currency token is the one with both fields
empty. -/
structure Token where
  currencySymbol : String
  tokenName : String
deriving DecidableEq, Repr

/-- Modelled from the spec (section 3, Party): either an externally-addressed
participant or a role-named participant. -/
inductive Party where
  | address (addr : String)
  | role (roleToken : String)
deriving DecidableEq, Repr

/-- Modelled from the spec (section 3): accounts are keyed by (Party, Token);
the account owner is a Party. -/
abbrev AccountId := Party

/-- Modelled from the spec (section 4.1): a choice identifier, i.e. the name
of the choice together with the party that owns it. -/
structure ChoiceId where
  choiceName : String
  choiceOwner : Party
deriving DecidableEq, Repr

/-- Modelled from the spec (section 3): identifier bound by Let and read by
UseValue. -/
abbrev ValueId := String

/-- Modelled from the spec (section 3, Bound): closed integer interval
constraining a choice.  In the TypeScript source the fields are named `from`
and `to`. -/
structure Bound where
  boundFrom : Int
  boundTo : Int
deriving DecidableEq, Repr

/-- Modelled from the spec (section 3, Payee): either another account (money
stays in the contract) or a party (external payment). -/
inductive Payee where
  | Account (accountId : AccountId)
  | Party (party : Party)
deriving DecidableEq, Repr

mutual

/-- Modelled from the spec (section 3, Value): recursive integer expression. -/
inductive Value where
  | AvailableMoney (accountId : AccountId) (token : Token)
  | Constant (n : Int)
  | NegValue (v : Value)
  | AddValue (lhs rhs : Value)
  | SubValue (lhs rhs : Value)
  | MulValue (lhs rhs : Value)
  | DivValue (lhs rhs : Value)
  | ChoiceValue (choiceId : ChoiceId)
  | TimeIntervalStart
  | TimeIntervalEnd
  | UseValue (valueId : ValueId)
  | Cond (obs : Observation) (thenValue elseValue : Value)

/-- Modelled from the spec (section 3, Observation): recursive boolean
expression. -/
inductive Observation where
  | AndObs (lhs rhs : Observation)
  | OrObs (lhs rhs : Observation)
  | NotObs (obs : Observation)
  | ChoseSomething (choiceId : ChoiceId)
  | ValueGE (lhs rhs : Value)
  | ValueGT (lhs rhs : Value)
  | ValueLT (lhs rhs : Value)
  | ValueLE (lhs rhs : Value)
  | ValueEQ (lhs rhs : Value)
  | TrueObs
  | FalseObs

end

/-- Modelled from the spec (section 3, Action): Deposit, Choice or Notify. -/
inductive Action where
  | Deposit (intoAccount : AccountId) (party : Party) (token : Token) (amount : Value)
  | Choice (choiceId : ChoiceId) (bounds : List Bound)
  | Notify (obs : Observation)

/-- Modelled from the spec (section 3, Case): an Action paired with a
continuation that is either inline or referenced by a content-addressed hash
(merkleized). -/
inductive Case (α : Type) where
  | mkCase (action : Action) (thenCont : α)
  | merkleizedCase (action : Action) (continuationHash : String)

/-- Modelled from the spec (section 3, Contract): closed recursive set of
contract variants. -/
inductive Contract where
  | Close
  | Pay (accountId : AccountId) (payee : Payee) (token : Token) (value : Value)
      (cont : Contract)
  | If (obs : Observation) (thenCont elseCont : Contract)
  | When (cases : List (Case Contract)) (timeout : Int) (cont : Contract)
  | Let (valueId : ValueId) (value : Value) (cont : Contract)
  | Assert (obs : Observation) (cont : Contract)

/-- Modelled from the spec (section 3, State): accounts, choices, bound
values and the monotonic minimum-time bound.  The three maps are represented
as association lists. -/
abbrev Accounts := List ((AccountId × Token) × Int)

/-- Modelled from the spec (section 3, State). -/
structure State where
  accounts : Accounts
  choices : List (ChoiceId × Int)
  boundValues : List (ValueId × Int)
  minTime : Int

/-- Modelled from the spec (section 3, Environment): the declared transaction
time interval, both endpoints inclusive.  In the TypeScript source the fields
are named `from` and `to`. -/
structure TimeInterval where
  fromTime : Int
  toTime : Int

/-- Modelled from the spec (section 3, Environment). -/
structure Environment where
  timeInterval : TimeInterval

/-- Lookup in an association list, returning `none` when the key is absent. -/
def findPair {κ : Type} [DecidableEq κ] (k : κ) : List (κ × Int) → Option Int
  | [] => none
  | (k₁, v) :: rest => if k = k₁ then some v else findPair k rest

/-- Lookup in an association list with a default for absent keys. -/
def findWithDefault {κ : Type} [DecidableEq κ] (d : Int) (k : κ)
    (l : List (κ × Int)) : Int :=
  (findPair k l).getD d

/-- Replace the binding of a key in an association list, or append it. -/
def assocUpdate {κ : Type} [DecidableEq κ] (k : κ) (v : Int) :
    List (κ × Int) → List (κ × Int)
  | [] => [(k, v)]
  | (k₁, v₁) :: rest =>
    if k = k₁ then (k, v) :: rest else (k₁, v₁) :: assocUpdate k v rest

/-- Remove the first binding of a key from an association list. -/
def assocDelete {κ : Type} [DecidableEq κ] (k : κ) :
    List (κ × Int) → List (κ × Int)
  | [] => []
  | (k₁, v₁) :: rest =>
    if k = k₁ then rest else (k₁, v₁) :: assocDelete k rest

theorem assocUpdate_length_le {κ : Type} [DecidableEq κ] (k : κ) (v : Int)
    (l : List (κ × Int)) : (assocUpdate k v l).length ≤ l.length + 1 := by
  induction l with
  | nil => simp [assocUpdate]
  | cons hd tl ih =>
    obtain ⟨k₁, v₁⟩ := hd
    simp only [assocUpdate]
    split <;> simp <;> omega

theorem assocDelete_length_le {κ : Type} [DecidableEq κ] (k : κ)
    (l : List (κ × Int)) : (assocDelete k l).length ≤ l.length := by
  induction l with
  | nil => simp [assocDelete]
  | cons hd tl ih =>
    obtain ⟨k₁, v₁⟩ := hd
    simp only [assocDelete]
    split <;> simp <;> omega

/-- Modelled from the spec (sections 3 and 4.1): the balance of an account,
zero when the account key is absent. -/
def moneyInAccount (accId : AccountId) (token : Token) (accounts : Accounts) :
    Int :=
  findWithDefault 0 (accId, token) accounts

/-- Modelled from the spec (section 3 invariant): an account key with zero or
negative balance is removed, otherwise the balance is replaced. -/
def updateMoneyInAccount (accId : AccountId) (token : Token) (amount : Int)
    (accounts : Accounts) : Accounts :=
  if amount ≤ 0 then assocDelete (accId, token) accounts
  else assocUpdate (accId, token) amount accounts

/-- Modelled from the spec (section 4.3): credit a deposit into an account;
non-positive amounts leave the accounts unchanged. -/
def addMoneyToAccount (accId : AccountId) (token : Token) (amount : Int)
    (accounts : Accounts) : Accounts :=
  if amount ≤ 0 then accounts
  else updateMoneyInAccount accId token
    (moneyInAccount accId token accounts + amount) accounts

/-- Modelled from the spec (section 3): a choice is valid if it falls within
any of its bounds. -/
def inBounds (num : Int) (bounds : List Bound) : Bool :=
  bounds.any fun b => decide (b.boundFrom ≤ num) && decide (num ≤ b.boundTo)

/-- Modelled from the spec (sections 3 and 4.1): exact integer division used
by the DivValue variant.  Division by zero yields zero; otherwise the
truncated quotient is adjusted so that the result is the nearest integer to
the exact quotient, with ties rounded away from zero. -/
def divide (n d : Int) : Int :=
  if d = 0 then 0
  else
    let q := n.tdiv d
    let r := n.tmod d
    if 2 * r.natAbs < d.natAbs then q else q + n.sign * d.sign

mutual

/-- Modelled from the spec (section 4.1): total recursive evaluation of a
Value against State and Environment. -/
def evalValue (env : Environment) (state : State) : Value → Int
  | .AvailableMoney accId token => moneyInAccount accId token state.accounts
  | .Constant n => n
  | .NegValue v => - evalValue env state v
  | .AddValue lhs rhs => evalValue env state lhs + evalValue env state rhs
  | .SubValue lhs rhs => evalValue env state lhs - evalValue env state rhs
  | .MulValue lhs rhs => evalValue env state lhs * evalValue env state rhs
  | .DivValue lhs rhs => divide (evalValue env state lhs) (evalValue env state rhs)
  | .ChoiceValue choiceId => findWithDefault 0 choiceId state.choices
  | .TimeIntervalStart => env.timeInterval.fromTime
  | .TimeIntervalEnd => env.timeInterval.toTime
  | .UseValue valueId => findWithDefault 0 valueId state.boundValues
  | .Cond obs thenValue elseValue =>
    if evalObservation env state obs then evalValue env state thenValue
    else evalValue env state elseValue

/-- Modelled from the spec (section 4.1): total recursive evaluation of an
Observation against State and Environment. -/
def evalObservation (env : Environment) (state : State) : Observation → Bool
  | .AndObs lhs rhs => evalObservation env state lhs && evalObservation env state rhs
  | .OrObs lhs rhs => evalObservation env state lhs || evalObservation env state rhs
  | .NotObs obs => ! evalObservation env state obs
  | .ChoseSomething choiceId => (findPair choiceId state.choices).isSome
  | .ValueGE lhs rhs => decide (evalValue env state lhs ≥ evalValue env state rhs)
  | .ValueGT lhs rhs => decide (evalValue env state lhs > evalValue env state rhs)
  | .ValueLT lhs rhs => decide (evalValue env state lhs < evalValue env state rhs)
  | .ValueLE lhs rhs => decide (evalValue env state lhs ≤ evalValue env state rhs)
  | .ValueEQ lhs rhs => decide (evalValue env state lhs = evalValue env state rhs)
  | .TrueObs => true
  | .FalseObs => false

end

/-- Modelled from the spec (sections 3 and 7): a produced payment, in
creation order: source account, payee, token, quantity. -/
structure Payment where
  paymentFrom : AccountId
  payee : Payee
  token : Token
  amount : Int
deriving DecidableEq, Repr

/-- Modelled from the spec (sections 4.2 and 7): the non-fatal warnings an
internal reduction step can produce. -/
inductive ReduceWarning where
  | ReduceNoWarning
  | ReduceNonPositivePay (accountId : AccountId) (payee : Payee) (token : Token)
      (amount : Int)
  | ReducePartialPay (accountId : AccountId) (payee : Payee) (token : Token)
      (paid expected : Int)
  | ReduceShadowing (valueId : ValueId) (oldValue newValue : Int)
  | ReduceAssertionFailed
deriving DecidableEq, Repr

/-- Modelled from the spec (section 4.2): result of one internal reduction
step: Reduced (carries warning, optional payment, new state, continuation),
NotReduced, or the fatal ambiguous-time-interval error. -/
inductive ReduceStepResult where
  | Reduced (warning : ReduceWarning) (effect : Option Payment) (state : State)
      (cont : Contract)
  | NotReduced
  | AmbiguousTimeIntervalError

/-- Modelled from the spec (section 4.2, Close): find the first account
holding funds, remove it and report owner, token and balance; accounts with
non-positive balances are dropped. -/
def refundOne : Accounts → Option ((Party × Token × Int) × Accounts)
  | [] => none
  | ((accId, token), balance) :: rest =>
    if 0 < balance then some ((accId, token, balance), rest) else refundOne rest

/-- Modelled from the spec (section 4.2, Pay): if the payee is another
account the money is credited there and stays in the contract; a payment
record is produced only for an external (party) payee. -/
def giveMoney (accId : AccountId) (payee : Payee) (token : Token) (amount : Int)
    (accounts : Accounts) : Option Payment × Accounts :=
  match payee with
  | .Account acc₂ => (none, addMoneyToAccount acc₂ token amount accounts)
  | .Party _ => (some ⟨accId, payee, token, amount⟩, accounts)

/-- Modelled from the spec (section 4.2): one internal reduction step, by
contract variant. -/
def reduceContractStep (env : Environment) (state : State) :
    Contract → ReduceStepResult
  | .Close =>
    match refundOne state.accounts with
    | some ((party, token, amount), rest) =>
      .Reduced .ReduceNoWarning (some ⟨party, .Party party, token, amount⟩)
        { state with accounts := rest } .Close
    | none => .NotReduced
  | .Pay accId payee token value cont =>
    let amountToPay := evalValue env state value
    if amountToPay ≤ 0 then
      .Reduced (.ReduceNonPositivePay accId payee token amountToPay) none state cont
    else
      let balance := moneyInAccount accId token state.accounts
      let paidAmount := min balance amountToPay
      let newBalance := balance - paidAmount
      let accsWithoutSource := updateMoneyInAccount accId token newBalance state.accounts
      let warning := if paidAmount < amountToPay then
          ReduceWarning.ReducePartialPay accId payee token paidAmount amountToPay
        else ReduceWarning.ReduceNoWarning
      let result := giveMoney accId payee token paidAmount accsWithoutSource
      .Reduced warning result.fst { state with accounts := result.snd } cont
  | .If obs thenCont elseCont =>
    .Reduced .ReduceNoWarning none state
      (if evalObservation env state obs then thenCont else elseCont)
  | .When _ timeout cont =>
    if timeout ≤ env.timeInterval.toTime then
      if timeout ≤ env.timeInterval.fromTime then
        .Reduced .ReduceNoWarning none state cont
      else .AmbiguousTimeIntervalError
    else .NotReduced
  | .Let valueId value cont =>
    let evaluatedValue := evalValue env state value
    let warning := match findPair valueId state.boundValues with
      | some oldValue =>
        if oldValue = evaluatedValue then ReduceWarning.ReduceNoWarning
        else ReduceWarning.ReduceShadowing valueId oldValue evaluatedValue
      | none => ReduceWarning.ReduceNoWarning
    .Reduced warning none
      { state with boundValues := assocUpdate valueId evaluatedValue state.boundValues }
      cont
  | .Assert obs cont =>
    let warning := if evalObservation env state obs then
        ReduceWarning.ReduceNoWarning
      else ReduceWarning.ReduceAssertionFailed
    .Reduced warning none state cont

/-- Static size of a contract, not descending into When cases; used as the
termination measure of the reduction fixpoint together with the number of
accounts. -/
def contractSize : Contract → Nat
  | .Close => 1
  | .Pay _ _ _ _ cont => contractSize cont + 1
  | .If _ thenCont elseCont => contractSize thenCont + contractSize elseCont + 1
  | .When _ _ cont => contractSize cont + 1
  | .Let _ _ cont => contractSize cont + 1
  | .Assert _ cont => contractSize cont + 1

theorem contractSize_pos (c : Contract) : 1 ≤ contractSize c := by
  cases c <;> simp [contractSize]

theorem refundOne_length_lt {accounts : Accounts} {p rest}
    (h : refundOne accounts = some (p, rest)) : rest.length < accounts.length := by
  induction accounts with
  | nil => simp [refundOne] at h
  | cons hd tl ih =>
    obtain ⟨⟨accId, token⟩, balance⟩ := hd
    rw [refundOne] at h
    split at h
    · cases h
      simp
    · have := ih h
      simp
      omega

theorem updateMoneyInAccount_length_le (accId : AccountId) (token : Token)
    (amount : Int) (accounts : Accounts) :
    (updateMoneyInAccount accId token amount accounts).length ≤ accounts.length + 1 := by
  rw [updateMoneyInAccount]
  split
  · have := assocDelete_length_le (accId, token) accounts
    omega
  · exact assocUpdate_length_le (accId, token) amount accounts

theorem addMoneyToAccount_length_le (accId : AccountId) (token : Token)
    (amount : Int) (accounts : Accounts) :
    (addMoneyToAccount accId token amount accounts).length ≤ accounts.length + 1 := by
  rw [addMoneyToAccount]
  split
  · omega
  · exact updateMoneyInAccount_length_le accId token _ accounts

/-- Termination measure for reduction: every Reduced step strictly decreases
it (spec section 4.2 requires an implementation to prove such a measure
decreases). -/
def reduceMeasure (state : State) (contract : Contract) : Nat :=
  3 * contractSize contract + state.accounts.length

theorem reduceContractStep_decreases {env state c warning effect s₁ c₁}
    (h : reduceContractStep env state c = .Reduced warning effect s₁ c₁) :
    reduceMeasure s₁ c₁ < reduceMeasure state c := by
  unfold reduceMeasure
  cases c
  case Close =>
    rw [reduceContractStep] at h
    rcases hr : refundOne state.accounts with _ | ⟨⟨party, token, amount⟩, rest⟩ <;>
      rw [hr] at h
    · cases h
    · cases h
      have := refundOne_length_lt hr
      simp [contractSize]
      omega
  case Pay accId payee token value cont =>
    rw [reduceContractStep] at h
    split at h
    · cases h
      simp [contractSize]
    · cases h
      have h₁ := updateMoneyInAccount_length_le accId token
        (moneyInAccount accId token state.accounts -
          min (moneyInAccount accId token state.accounts) (evalValue env state value))
        state.accounts
      rcases payee with acc₂ | party
      · have h₂ := addMoneyToAccount_length_le acc₂ token
          (min (moneyInAccount accId token state.accounts) (evalValue env state value))
          (updateMoneyInAccount accId token
            (moneyInAccount accId token state.accounts -
              min (moneyInAccount accId token state.accounts) (evalValue env state value))
            state.accounts)
        simp [giveMoney, contractSize] at *
        omega
      · simp [giveMoney, contractSize] at *
        omega
  case If obs thenCont elseCont =>
    rw [reduceContractStep] at h
    cases h
    split <;> simp [contractSize] <;> omega
  case When cases timeout cont =>
    rw [reduceContractStep] at h
    split at h
    · split at h
      · cases h
        simp [contractSize]
      · cases h
    · cases h
  case Let valueId value cont =>
    rw [reduceContractStep] at h
    cases h
    simp [contractSize]
  case Assert obs cont =>
    rw [reduceContractStep] at h
    cases h
    simp [contractSize]

/-- Modelled from the spec (section 4.2): result of reducing until
quiescence: either quiescent (with the flag telling whether at least one step
was taken, the ordered warnings and payments, final state and contract), or
the ambiguous-time-interval error. -/
inductive ReduceResult where
  | ContractQuiescent (reduced : Bool) (warnings : List ReduceWarning)
      (payments : List Payment) (state : State) (cont : Contract)
  | RRAmbiguousTimeIntervalError

/-- Append a step warning, skipping the no-warning marker. -/
def appendWarning (warnings : List ReduceWarning) :
    ReduceWarning → List ReduceWarning
  | .ReduceNoWarning => warnings
  | w => warnings ++ [w]

/-- Append an optional step payment. -/
def appendEffect (payments : List Payment) : Option Payment → List Payment
  | none => payments
  | some p => payments ++ [p]

/-- Modelled from the spec (section 4.2): the fixpoint driver that exhausts
internal steps, accumulating ordered warnings and payments. -/
def reduceLoop (env : Environment) (state : State) (contract : Contract)
    (warnings : List ReduceWarning) (payments : List Payment) (reduced : Bool) :
    ReduceResult :=
  match h : reduceContractStep env state contract with
  | .Reduced warning effect newState cont =>
    reduceLoop env newState cont (appendWarning warnings warning)
      (appendEffect payments effect) true
  | .NotReduced => .ContractQuiescent reduced warnings payments state contract
  | .AmbiguousTimeIntervalError => .RRAmbiguousTimeIntervalError
termination_by reduceMeasure state contract
decreasing_by exact reduceContractStep_decreases h

/-- Modelled from the spec (section 4.2): repeatedly apply one internal step
until the contract is quiescent or an ambiguous-interval error is hit. -/
def reduceContractUntilQuiescent (env : Environment) (state : State)
    (contract : Contract) : ReduceResult :=
  reduceLoop env state contract [] [] false

theorem reduceLoop_eq (env : Environment) (state : State) (contract : Contract)
    (warnings : List ReduceWarning) (payments : List Payment) (reduced : Bool) :
    reduceLoop env state contract warnings payments reduced =
      match reduceContractStep env state contract with
      | .Reduced warning effect newState cont =>
        reduceLoop env newState cont (appendWarning warnings warning)
          (appendEffect payments effect) true
      | .NotReduced => .ContractQuiescent reduced warnings payments state contract
      | .AmbiguousTimeIntervalError => .RRAmbiguousTimeIntervalError := by
  rw [reduceLoop]
  split <;> rename_i h <;> rw [h]

theorem reduceLoop_quiescent_aux (env : Environment) :
    ∀ (n : Nat) (state : State) (contract : Contract) warnings payments reduced
      b₁ ws₁ ps₁ s₁ c₁,
      reduceMeasure state contract ≤ n →
      reduceLoop env state contract warnings payments reduced =
        .ContractQuiescent b₁ ws₁ ps₁ s₁ c₁ →
      reduceContractStep env s₁ c₁ = .NotReduced := by
  intro n
  induction n with
  | zero =>
    intro state contract warnings payments reduced b₁ ws₁ ps₁ s₁ c₁ hle _
    have := contractSize_pos contract
    unfold reduceMeasure at hle
    omega
  | succ n ih =>
    intro state contract warnings payments reduced b₁ ws₁ ps₁ s₁ c₁ hle hloop
    rw [reduceLoop_eq] at hloop
    cases hstep : reduceContractStep env state contract <;> rw [hstep] at hloop
    · have hdec := reduceContractStep_decreases hstep
      exact ih _ _ _ _ true b₁ ws₁ ps₁ s₁ c₁ (by omega) hloop
    · cases hloop
      exact hstep
    · cases hloop

/-- Quiescence of the loop result: whenever the fixpoint driver reports a
quiescent contract, no further internal step applies to it. -/
theorem reduceLoop_quiescent {env state contract warnings payments reduced
    b₁ ws₁ ps₁ s₁ c₁}
    (h : reduceLoop env state contract warnings payments reduced =
      .ContractQuiescent b₁ ws₁ ps₁ s₁ c₁) :
    reduceContractStep env s₁ c₁ = .NotReduced :=
  reduceLoop_quiescent_aux env (reduceMeasure state contract) state contract
    warnings payments reduced b₁ ws₁ ps₁ s₁ c₁ (Nat.le_refl _) h

/-- Reduction of an already-quiescent configuration returns immediately with
no warnings, no payments and the unchanged state and contract. -/
theorem reduce_of_notReduced {env state contract}
    (h : reduceContractStep env state contract = .NotReduced) :
    reduceContractUntilQuiescent env state contract =
      .ContractQuiescent false [] [] state contract := by
  rw [reduceContractUntilQuiescent, reduceLoop_eq, h]

/-- Modelled from the spec (section 3, Input): one external input: a deposit,
a choice, or a notification. -/
inductive InputContent where
  | IDeposit (intoAccount : AccountId) (party : Party) (token : Token)
      (quantity : Int)
  | IChoice (choiceId : ChoiceId) (chosenNum : Int)
  | INotify

/-- Modelled from the spec (section 3, Input): any input variant may carry a
merkleized-continuation disclosure (hash plus the contract it hashes to) when
the matched Case is merkleized. -/
structure Input where
  content : InputContent
  disclosure : Option (String × Contract)

/-- Modelled from the spec (section 7): the non-fatal warning applying one
input can produce. -/
inductive ApplyWarning where
  | ApplyNoWarning
  | ApplyNonPositiveDeposit (party : Party) (intoAccount : AccountId)
      (token : Token) (amount : Int)

/-- Modelled from the spec (sections 4.3 and 7): result of applying one input
against the case list of a waiting When. -/
inductive ApplyResult where
  | Applied (warning : ApplyWarning) (state : State) (cont : Contract)
  | ApplyNoMatchError
  | ApplyHashMismatch

/-- Modelled from the spec (section 4.3): whether an input content matches
the Action of a case, and the state effect of the match.  A Deposit matches a
DepositInput with identical party, account and token whose evaluated amount
equals the declared quantity exactly; a Choice matches a ChoiceInput with
identical choice-id whose value lies within at least one bound; a Notify
matches a NotifyInput only if its observation currently evaluates to true.
`none` means no match. -/
def applyAction (env : Environment) (state : State) :
    InputContent → Action → Option (ApplyWarning × State)
  | .IDeposit accId₁ party₁ token₁ quantity, .Deposit accId₂ party₂ token₂ value =>
    if party₁ = party₂ ∧ accId₁ = accId₂ ∧ token₁ = token₂ ∧
        quantity = evalValue env state value then
      if 0 < quantity then
        some (.ApplyNoWarning,
          { state with accounts := addMoneyToAccount accId₁ token₁ quantity state.accounts })
      else
        some (.ApplyNonPositiveDeposit party₁ accId₁ token₁ quantity, state)
    else none
  | .IChoice choiceId₁ chosenNum, .Choice choiceId₂ bounds =>
    if choiceId₁ = choiceId₂ ∧ inBounds chosenNum bounds then
      some (.ApplyNoWarning,
        { state with choices := assocUpdate choiceId₁ chosenNum state.choices })
    else none
  | .INotify, .Notify obs =>
    if evalObservation env state obs then some (.ApplyNoWarning, state) else none
  | _, _ => none

/-- Action recorded in a case. -/
def caseAction : Case Contract → Action
  | .mkCase action _ => action
  | .merkleizedCase action _ => action

/-- Modelled from the spec (section 4.3): the continuation of a matched case.
An inline case yields its continuation; a merkleized case requires the input
to disclose a continuation whose hash equals the recorded hash, and yields
`none` (a hash mismatch) otherwise. -/
def getContinuation (input : Input) : Case Contract → Option Contract
  | .mkCase _ cont => some cont
  | .merkleizedCase _ continuationHash =>
    match input.disclosure with
    | some (h, cont) => if h = continuationHash then some cont else none
    | none => none

/-- Modelled from the spec (section 4.3): match the input against the case
list in declared order, using the first case whose Action matches; no
matching case is the NoMatch error, and a matched merkleized case whose
disclosure does not check out is the fatal HashMismatch. -/
def applyCases (env : Environment) (state : State) (input : Input) :
    List (Case Contract) → ApplyResult
  | [] => .ApplyNoMatchError
  | headCase :: tailCases =>
    match applyAction env state input.content (caseAction headCase) with
    | some (warning, newState) =>
      match getContinuation input headCase with
      | some cont => .Applied warning newState cont
      | none => .ApplyHashMismatch
    | none => applyCases env state input tailCases

/-- Modelled from the spec (section 4.3): apply one input to a contract; only
a When waiting for input can consume an input, anything else is the NoMatch
rejection. -/
def applyInput (env : Environment) (state : State) (contract : Contract)
    (input : Input) : ApplyResult :=
  match contract with
  | .When cases _ _ => applyCases env state input cases
  | _ => .ApplyNoMatchError

/-- Modelled from the spec (sections 3 and 7, TransactionWarning): typed
record of every degraded-but-recoverable condition of a transaction. -/
inductive TransactionWarning where
  | TransactionNonPositiveDeposit (party : Party) (intoAccount : AccountId)
      (token : Token) (amount : Int)
  | TransactionNonPositivePay (accountId : AccountId) (payee : Payee)
      (token : Token) (amount : Int)
  | TransactionPartialPay (accountId : AccountId) (payee : Payee)
      (token : Token) (paid expected : Int)
  | TransactionShadowing (valueId : ValueId) (oldValue newValue : Int)
  | TransactionAssertionFailed
deriving DecidableEq, Repr

/-- Conversion of reduction warnings into transaction warnings, dropping the
no-warning markers (mirrors `convertReduceWarning` of the semantics module,
imported by applicable-inputs.ts). -/
def convertReduceWarning (warnings : List ReduceWarning) :
    List TransactionWarning :=
  warnings.filterMap fun w =>
    match w with
    | .ReduceNoWarning => none
    | .ReduceNonPositivePay accId payee token amount =>
      some (.TransactionNonPositivePay accId payee token amount)
    | .ReducePartialPay accId payee token paid expected =>
      some (.TransactionPartialPay accId payee token paid expected)
    | .ReduceShadowing valueId oldValue newValue =>
      some (.TransactionShadowing valueId oldValue newValue)
    | .ReduceAssertionFailed => some .TransactionAssertionFailed

/-- Conversion of the warning of one input application into transaction
warnings. -/
def convertApplyWarning : ApplyWarning → List TransactionWarning
  | .ApplyNoWarning => []
  | .ApplyNonPositiveDeposit party accId token amount =>
    [.TransactionNonPositiveDeposit party accId token amount]

/-- Modelled from the spec (sections 4.3 and 7): the result of applying a
whole batch of inputs: success with ordered warnings and payments, final
state and continuation, or one of the three fatal, batch-aborting errors,
which carry no partial results.  In the TypeScript source the errors are the
strings checked by applicable-inputs.ts. -/
inductive TransactionOutput where
  | TransactionSuccess (warnings : List TransactionWarning)
      (payments : List Payment) (state : State) (cont : Contract)
  | TEAmbiguousTimeIntervalError
  | TEApplyNoMatchError
  | TEHashMismatchError

/-- Modelled from the spec (section 4.3): the accumulation loop of
applyAllInputs: reduce to quiescence, then either return (empty input list)
or apply the next input and continue.  Fatal conditions short-circuit,
discarding the accumulated warnings and payments. -/
def applyAllLoop (env : Environment) (state : State) (contract : Contract)
    (inputs : List Input) (warnings : List TransactionWarning)
    (payments : List Payment) : TransactionOutput :=
  match reduceContractUntilQuiescent env state contract with
  | .RRAmbiguousTimeIntervalError => .TEAmbiguousTimeIntervalError
  | .ContractQuiescent _ reduceWarns reducePays curState cont =>
    match inputs with
    | [] =>
      .TransactionSuccess (warnings ++ convertReduceWarning reduceWarns)
        (payments ++ reducePays) curState cont
    | input :: rest =>
      match applyInput env curState cont input with
      | .Applied applyWarn newState newCont =>
        applyAllLoop env newState newCont rest
          (warnings ++ convertReduceWarning reduceWarns ++ convertApplyWarning applyWarn)
          (payments ++ reducePays)
      | .ApplyNoMatchError => .TEApplyNoMatchError
      | .ApplyHashMismatch => .TEHashMismatchError

/-- Modelled from the spec (section 4.3): fold applyInput left-to-right over
the input list, threading state and contract, reducing to quiescence before
the first input and after each input, concatenating warnings and payments in
order. -/
def applyAllInputs (env : Environment) (state : State) (contract : Contract)
    (inputs : List Input) : TransactionOutput :=
  applyAllLoop env state contract inputs [] []

theorem convertReduceWarning_nil : convertReduceWarning [] = [] := rfl

/-- A successful batch ends on a quiescent configuration. -/
theorem applyAllLoop_success_quiescent {env} :
    ∀ (inputs : List Input) (state : State) (contract : Contract) warnings payments
      ws₁ ps₁ s₁ c₁,
      applyAllLoop env state contract inputs warnings payments =
        .TransactionSuccess ws₁ ps₁ s₁ c₁ →
      reduceContractStep env s₁ c₁ = .NotReduced := by
  intro inputs
  induction inputs with
  | nil =>
    intro state contract warnings payments ws₁ ps₁ s₁ c₁ h
    rw [applyAllLoop] at h
    cases hred : reduceContractUntilQuiescent env state contract <;>
        rw [hred] at h <;> dsimp only at h
    · cases h
      exact reduceLoop_quiescent hred
    · cases h
  | cons input rest ih =>
    intro state contract warnings payments ws₁ ps₁ s₁ c₁ h
    rw [applyAllLoop] at h
    cases hred : reduceContractUntilQuiescent env state contract <;>
        rw [hred] at h <;> dsimp only at h
    · rename_i b rws rps cs cc
      cases happ : applyInput env cs cc input <;> rw [happ] at h <;> dsimp only at h
      · exact ih _ _ _ _ ws₁ ps₁ s₁ c₁ h
      · cases h
      · cases h
    · cases h

/-- Processing a concatenated batch whose prefix succeeds continues with the
suffix from the configuration the prefix reached. -/
theorem applyAllLoop_append_success {env} :
    ∀ (pre : List Input) (state : State) (contract : Contract)
      (suffix : List Input) warnings payments ws₁ ps₁ s₁ c₁,
      applyAllLoop env state contract pre warnings payments =
        .TransactionSuccess ws₁ ps₁ s₁ c₁ →
      applyAllLoop env state contract (pre ++ suffix) warnings payments =
        applyAllLoop env s₁ c₁ suffix ws₁ ps₁ := by
  intro pre
  induction pre with
  | nil =>
    intro state contract suffix warnings payments ws₁ ps₁ s₁ c₁ h
    rw [applyAllLoop] at h
    cases hred : reduceContractUntilQuiescent env state contract <;>
        rw [hred] at h <;> dsimp only at h
    · rename_i b rws rps cs cc
      cases h
      have hqs : reduceContractUntilQuiescent env s₁ c₁ =
          .ContractQuiescent false [] [] s₁ c₁ :=
        reduce_of_notReduced (reduceLoop_quiescent hred)
      simp only [List.nil_append]
      cases suffix with
      | nil =>
        conv_lhs => rw [applyAllLoop]
        conv_rhs => rw [applyAllLoop]
        rw [hred, hqs]
        dsimp only
        simp [convertReduceWarning]
      | cons input rest =>
        conv_lhs => rw [applyAllLoop]
        conv_rhs => rw [applyAllLoop]
        rw [hred, hqs]
        dsimp only
        cases happ : applyInput env s₁ c₁ input <;> dsimp only
        · simp [convertReduceWarning, List.append_assoc]
    · cases h
  | cons input pre₁ ih =>
    intro state contract suffix warnings payments ws₁ ps₁ s₁ c₁ h
    rw [applyAllLoop] at h
    cases hred : reduceContractUntilQuiescent env state contract <;>
        rw [hred] at h <;> dsimp only at h
    · rename_i b rws rps cs cc
      cases happ : applyInput env cs cc input <;> rw [happ] at h <;> dsimp only at h
      · rename_i applyWarn newState newCont
        simp only [List.cons_append]
        conv_lhs => rw [applyAllLoop]
        rw [hred]
        dsimp only
        rw [happ]
        dsimp only
        exact ih _ _ _ _ _ ws₁ ps₁ s₁ c₁ h
      · cases h
      · cases h
    · cases h

theorem tmod_neg_left (a b : Int) : (-a).tmod b = -(a.tmod b) := by
  rw [Int.tmod_def, Int.tmod_def, Int.neg_tdiv]
  ring

theorem divide_neg_right (n d : Int) : divide n (-d) = - divide n d := by
  rcases eq_or_ne d 0 with rfl | hd
  · simp [divide]
  · have hnd : -d ≠ 0 := neg_ne_zero.mpr hd
    rw [divide, divide, if_neg hnd, if_neg hd]
    simp only [Int.tdiv_neg, Int.tmod_neg, Int.natAbs_neg, Int.sign_neg]
    split
    · rfl
    · ring

theorem divide_neg_left (n d : Int) : divide (-n) d = - divide n d := by
  rcases eq_or_ne d 0 with rfl | hd
  · simp [divide]
  · rw [divide, divide, if_neg hd, if_neg hd]
    simp only [Int.neg_tdiv, tmod_neg_left, Int.natAbs_neg, Int.sign_neg]
    split
    · rfl
    · ring

theorem divide_nearest_nonneg {n d : Int} (hn : 0 ≤ n) (hd : 0 < d) :
    2 * (n - d * divide n d).natAbs ≤ d.natAbs ∧
    (2 * (n - d * divide n d).natAbs = d.natAbs →
      n.natAbs ≤ (d * divide n d).natAbs) := by
  have hd0 : d ≠ 0 := ne_of_gt hd
  have hqr : n.tmod d + d * n.tdiv d = n := Int.tmod_add_tdiv n d
  have hrnn : 0 ≤ n.tmod d := Int.tmod_nonneg d hn
  have hrlt : n.tmod d < d := Int.tmod_lt_of_pos n hd
  have hqnn : 0 ≤ n.tdiv d := Int.tdiv_nonneg hn hd.le
  have hdq : 0 ≤ d * n.tdiv d := mul_nonneg hd.le hqnn
  rw [divide, if_neg hd0]
  dsimp only
  split
  · rename_i hlt
    constructor
    · omega
    · intro htie
      omega
  · rename_i hge
    push_neg at hge
    have hn0 : 0 < n := by
      rcases lt_or_eq_of_le hn with h | h
      · exact h
      · exfalso
        rw [← h] at hge
        simp [Int.zero_tmod] at hge
        omega
    have hsn : n.sign = 1 := Int.sign_eq_one_of_pos hn0
    have hsd : d.sign = 1 := Int.sign_eq_one_of_pos hd
    rw [hsn, hsd]
    have h2 : d * (n.tdiv d + 1 * 1) = d * n.tdiv d + d := by ring
    rw [h2]
    constructor
    · omega
    · intro htie
      omega

theorem divide_nearest_pos {d : Int} (hd : 0 < d) (n : Int) :
    2 * (n - d * divide n d).natAbs ≤ d.natAbs ∧
    (2 * (n - d * divide n d).natAbs = d.natAbs →
      n.natAbs ≤ (d * divide n d).natAbs) := by
  rcases le_or_lt 0 n with hn | hn
  · exact divide_nearest_nonneg hn hd
  · have h1 := divide_neg_left n d
    have h2 : divide n d = - divide (-n) d := by rw [h1, neg_neg]
    obtain ⟨ha, hb⟩ := divide_nearest_nonneg (show (0:Int) ≤ -n by omega) hd
    have e : n - d * divide n d = -((-n) - d * divide (-n) d) := by
      rw [h2]
      ring
    constructor
    · rw [e, Int.natAbs_neg]
      exact ha
    · intro htie
      rw [e, Int.natAbs_neg] at htie
      have hc := hb htie
      have e2 : d * divide n d = -(d * divide (-n) d) := by
        rw [h2]
        ring
      rw [e2, Int.natAbs_neg, ← Int.natAbs_neg n]
      exact hc

/-- The rounded quotient is within half a divisor of the dividend, and at an
exact half it moves away from zero: together these two properties say the
quotient is the nearest integer to the exact ratio, ties away from zero. -/
theorem divide_nearest {n d : Int} (hd : d ≠ 0) :
    2 * (n - d * divide n d).natAbs ≤ d.natAbs ∧
    (2 * (n - d * divide n d).natAbs = d.natAbs →
      n.natAbs ≤ (d * divide n d).natAbs) := by
  rcases lt_or_gt_of_ne hd with hneg | hpos
  · have h1 := divide_neg_right n (-d)
    rw [neg_neg] at h1
    obtain ⟨ha, hb⟩ := divide_nearest_pos (show (0:Int) < -d by omega) n
    have e : n - d * divide n d = n - (-d) * divide n (-d) := by
      rw [h1]
      ring
    constructor
    · rw [e, ← Int.natAbs_neg d]
      exact ha
    · intro htie
      rw [e, ← Int.natAbs_neg d] at htie
      have hc := hb htie
      have e2 : d * divide n d = (-d) * divide n (-d) := by
        rw [h1]
        ring
      rw [e2]
      exact hc
  · exact divide_nearest_pos hpos n

/-!
Embedding of the browser CIP30 wallet adapter (src/unnamed/part_000).
-/

/-- Eventual result of a TaskEither of the fp-ts library, as used by the
wallet adapter: the Either value the asynchronous task settles to. -/
inductive TaskEitherResult (ε α : Type) where
  | left (e : ε)
  | right (a : α)
deriving DecidableEq, Repr

/-- Embedded from src/unnamed/part_000, line 34, the waitConfirmation field
of the WalletAPI instance built by getExtensionInstance:
`(txHash) => TE.of (true)`.  `TE.of x` is the task that immediately succeeds
with `Right x`; the argument is never consulted and the chain is never
queried. -/
def waitConfirmation (txHash : String) : TaskEitherResult String Bool :=
  .right true

/-!
Embedding of the metadata Blueprint codec (src/unnamed/part_002).
-/

/-- Metadatum values of the runtime-core Metadata type.  The type itself is
repository code not present under src; its exact shape is irrelevant here,
only that encoded blueprints are Metadata values (a finite map from numeric
labels to metadatum trees, as built by the encode at lines 113 to 121 of
part_002). -/
inductive Metadatum where
  | int (n : Int)
  | str (s : String)
  | list (items : List Metadatum)
  | map (entries : List (Metadatum × Metadatum))

/-- Metadata: a finite map from numeric metadata labels to metadatum
values. -/
abbrev Metadata := List (Nat × Metadatum)

/-- Outcome of running an io-ts codec validation of part_002: a successful
decode, a failed validation (a Left), or a thrown exception. -/
inductive DecodeOutcome (α : Type) where
  | success (a : α)
  | failure
  | thrown (message : String)

/-- Embedded from src/unnamed/part_002, lines 99 to 104: the validate
function of the inner Blueprint codec.  It reads `val[9041]` (an effect-free
property lookup) and then unconditionally throws "Not implemented". -/
def blueprintInnerValidate (T : Type) (val : Metadata) : DecodeOutcome T :=
  .thrown "Not implemented"

/-- Embedded from src/unnamed/part_002, line 96: `Metadata.pipe(inner)`.
Piping two io-ts codecs decodes with the outer codec first and, on success,
runs the validate of the inner codec; failures and thrown exceptions
propagate. -/
def pipeDecode {α β γ : Type} (outer : α → DecodeOutcome β)
    (inner : β → DecodeOutcome γ) (value : α) : DecodeOutcome γ :=
  match outer value with
  | .success b => inner b
  | .failure => .failure
  | .thrown message => .thrown message

/-- Embedded from src/unnamed/part_002, lines 162 to 169, Blueprint.decode:
run the decode of the piped blueprint codec on the Metadata value; a Right
returns its payload, a Left throws "Invalid value", and an exception thrown
inside the codec propagates to the caller.  The outer Metadata codec (also
repository code not under src) is abstracted as a parameter. -/
def blueprintDecode (T : Type) (outerValidate : Metadata → DecodeOutcome Metadata)
    (value : Metadata) : DecodeOutcome T :=
  match pipeDecode outerValidate (blueprintInnerValidate T) value with
  | .success t => .success t
  | .failure => .thrown "Invalid value"
  | .thrown message => .thrown message

/-- Embedded from src/unnamed/part_002, lines 105 to 121, the encode of the
inner Blueprint codec: the produced metadata binds the single label 9041 to a
record with version field 1 and the encoded parameter list. -/
def blueprintEncode (params : List Metadatum) : Metadata :=
  [(9041, .map [(.str "v", .int 1), (.str "params", .list params)])]

/-!
Sample values used by the witnesses.
-/

/-- State with no accounts, choices or bound values. -/
def emptyState : State := ⟨[], [], [], 0⟩

/-- Sample party. -/
def alice : Party := .address "addr_alice"

/-- The native-currency token. -/
def lovelace : Token := ⟨"", ""⟩

/-!
Claim theorems.
-/

/-- C1: for every When contract with timeout T and every environment
[lo, hi], the internal reduction step reduces the When into its
timeout continuation when hi ≥ T and T is not strictly above lo (the
ambiguous carve-out of the next clause); it yields
AmbiguousTimeIntervalError when lo < T ≤ hi; and it is NotReduced when
hi < T.  In particular [T, T] reduces via timeout (inclusive boundary)
while [T-1, T-1] is NotReduced. -/
theorem claim1_when_timeout_reduction (cases : List (Case Contract))
    (timeout : Int) (cont : Contract) (state : State) (lo hi : Int) :
    (timeout ≤ hi → timeout ≤ lo →
      reduceContractStep ⟨⟨lo, hi⟩⟩ state (.When cases timeout cont) =
        .Reduced .ReduceNoWarning none state cont) ∧
    (lo < timeout → timeout ≤ hi →
      reduceContractStep ⟨⟨lo, hi⟩⟩ state (.When cases timeout cont) =
        .AmbiguousTimeIntervalError) ∧
    (hi < timeout →
      reduceContractStep ⟨⟨lo, hi⟩⟩ state (.When cases timeout cont) =
        .NotReduced) ∧
    (reduceContractStep ⟨⟨timeout, timeout⟩⟩ state (.When cases timeout cont) =
      .Reduced .ReduceNoWarning none state cont) ∧
    (reduceContractStep ⟨⟨timeout - 1, timeout - 1⟩⟩ state
      (.When cases timeout cont) = .NotReduced) := by
  refine ⟨?_, ?_, ?_, ?_, ?_⟩
  · intro h₁ h₂
    rw [reduceContractStep]
    rw [if_pos h₁, if_pos h₂]
  · intro h₁ h₂
    rw [reduceContractStep]
    rw [if_pos h₂, if_neg (by omega : ¬ timeout ≤ lo)]
  · intro h₁
    rw [reduceContractStep]
    rw [if_neg (by omega : ¬ timeout ≤ hi)]
  · rw [reduceContractStep]
    rw [if_pos le_rfl, if_pos le_rfl]
  · rw [reduceContractStep]
    rw [if_neg (by omega : ¬ timeout ≤ timeout - 1)]

/-- Witness for C1 at concrete inputs: timeout 10 with environment [10, 10]
reduces via timeout, [0, 5] straddling timeout 3 is ambiguous, and [9, 9]
below timeout 10 is NotReduced. -/
theorem claim1_witness :
    reduceContractStep ⟨⟨10, 10⟩⟩ emptyState (.When [] 10 .Close) =
      .Reduced .ReduceNoWarning none emptyState .Close ∧
    reduceContractStep ⟨⟨0, 5⟩⟩ emptyState (.When [] 3 .Close) =
      .AmbiguousTimeIntervalError ∧
    reduceContractStep ⟨⟨9, 9⟩⟩ emptyState (.When [] 10 .Close) =
      .NotReduced := by
  refine ⟨?_, ?_, ?_⟩
  · exact (claim1_when_timeout_reduction [] 10 .Close emptyState 10 10).1
      (by norm_num) (by norm_num)
  · exact (claim1_when_timeout_reduction [] 3 .Close emptyState 0 5).2.1
      (by norm_num) (by norm_num)
  · exact (claim1_when_timeout_reduction [] 10 .Close emptyState 9 9).2.2.1
      (by norm_num)

/-- C2: for every environment, state and contract, applyAllInputs on the
empty input list returns exactly the quiescence reduction of the initial
contract: the same final state and contract, the same payments, and the same
warnings (under the warning conversion applyAllInputs performs), with no
additional effects; an ambiguous reduction is returned as the corresponding
error. -/
theorem claim2_applyAllInputs_empty (env : Environment) (state : State)
    (contract : Contract) :
    (∀ b rws rps s₁ c₁,
      reduceContractUntilQuiescent env state contract =
        .ContractQuiescent b rws rps s₁ c₁ →
      applyAllInputs env state contract [] =
        .TransactionSuccess (convertReduceWarning rws) rps s₁ c₁) ∧
    (reduceContractUntilQuiescent env state contract =
        .RRAmbiguousTimeIntervalError →
      applyAllInputs env state contract [] = .TEAmbiguousTimeIntervalError) := by
  constructor
  · intro b rws rps s₁ c₁ h
    rw [applyAllInputs, applyAllLoop, h]
    dsimp only
    simp
  · intro h
    rw [applyAllInputs, applyAllLoop, h]

/-- Witness for C2 at a concrete input: a Close contract with empty accounts
is already quiescent and applyAllInputs with no inputs returns it
untouched. -/
theorem claim2_witness :
    reduceContractUntilQuiescent ⟨⟨0, 5⟩⟩ emptyState .Close =
      .ContractQuiescent false [] [] emptyState .Close ∧
    applyAllInputs ⟨⟨0, 5⟩⟩ emptyState .Close [] =
      .TransactionSuccess (convertReduceWarning []) [] emptyState .Close := by
  have h : reduceContractUntilQuiescent ⟨⟨0, 5⟩⟩ emptyState .Close =
      .ContractQuiescent false [] [] emptyState .Close :=
    reduce_of_notReduced rfl
  exact ⟨h, (claim2_applyAllInputs_empty ⟨⟨0, 5⟩⟩ emptyState .Close).1
    false [] [] emptyState .Close h⟩

/-- C3: a failing input aborts the whole batch.  If the inputs processed so
far succeeded, reaching a configuration on which the next input fails with
NoMatch or HashMismatch, then applyAllInputs on the whole batch returns
exactly that failure (a bare error constructor: no partial state, payments or
warnings are delivered); an ambiguous reduction likewise aborts the batch
with its own error for every input list. -/
theorem claim3_failure_aborts_batch (env : Environment) (state : State)
    (contract : Contract) (pre : List Input) (input : Input)
    (rest : List Input) :
    (∀ ws ps s₁ c₁,
      applyAllInputs env state contract pre = .TransactionSuccess ws ps s₁ c₁ →
      ((applyInput env s₁ c₁ input = .ApplyNoMatchError →
        applyAllInputs env state contract (pre ++ input :: rest) =
          .TEApplyNoMatchError) ∧
      (applyInput env s₁ c₁ input = .ApplyHashMismatch →
        applyAllInputs env state contract (pre ++ input :: rest) =
          .TEHashMismatchError))) ∧
    (reduceContractUntilQuiescent env state contract =
        .RRAmbiguousTimeIntervalError →
      ∀ inputs, applyAllInputs env state contract inputs =
        .TEAmbiguousTimeIntervalError) := by
  constructor
  · intro ws ps s₁ c₁ hpre
    have hq : reduceContractUntilQuiescent env s₁ c₁ =
        .ContractQuiescent false [] [] s₁ c₁ :=
      reduce_of_notReduced
        (applyAllLoop_success_quiescent pre state contract [] [] ws ps s₁ c₁ hpre)
    have happend := applyAllLoop_append_success pre state contract
      (input :: rest) [] [] ws ps s₁ c₁ hpre
    constructor
    · intro hfail
      rw [applyAllInputs, happend, applyAllLoop, hq]
      dsimp only
      rw [hfail]
    · intro hfail
      rw [applyAllInputs, happend, applyAllLoop, hq]
      dsimp only
      rw [hfail]
  · intro hamb inputs
    rw [applyAllInputs, applyAllLoop, hamb]

/-- Witness for C3 at concrete inputs: a Notify input against Close gives
NoMatch and aborts the batch; a Notify input matching a merkleized case with
no disclosure gives HashMismatch and aborts the batch; an environment
straddling a timeout aborts the batch with the ambiguous error. -/
theorem claim3_witness :
    applyAllInputs ⟨⟨0, 5⟩⟩ emptyState .Close [⟨.INotify, none⟩] =
      .TEApplyNoMatchError ∧
    applyAllInputs ⟨⟨0, 5⟩⟩ emptyState
      (.When [.merkleizedCase (.Notify .TrueObs) "h"] 10 .Close)
      [⟨.INotify, none⟩] = .TEHashMismatchError ∧
    applyAllInputs ⟨⟨0, 5⟩⟩ emptyState (.When [] 3 .Close) [] =
      .TEAmbiguousTimeIntervalError := by
  have h₁ : applyAllInputs ⟨⟨0, 5⟩⟩ emptyState .Close [] =
      .TransactionSuccess [] [] emptyState .Close := by
    rw [applyAllInputs, applyAllLoop,
      @reduce_of_notReduced ⟨⟨0, 5⟩⟩ emptyState .Close rfl]
    rfl
  have h₂ : applyAllInputs ⟨⟨0, 5⟩⟩ emptyState
      (.When [.merkleizedCase (.Notify .TrueObs) "h"] 10 .Close) [] =
      .TransactionSuccess [] [] emptyState
        (.When [.merkleizedCase (.Notify .TrueObs) "h"] 10 .Close) := by
    rw [applyAllInputs, applyAllLoop, @reduce_of_notReduced ⟨⟨0, 5⟩⟩ emptyState
      (.When [.merkleizedCase (.Notify .TrueObs) "h"] 10 .Close) rfl]
    rfl
  have hamb : reduceContractUntilQuiescent ⟨⟨0, 5⟩⟩ emptyState
      (.When [] 3 .Close) = .RRAmbiguousTimeIntervalError := by
    rw [reduceContractUntilQuiescent, reduceLoop_eq]
    rfl
  refine ⟨?_, ?_, ?_⟩
  · exact ((claim3_failure_aborts_batch ⟨⟨0, 5⟩⟩ emptyState .Close []
      ⟨.INotify, none⟩ []).1 [] [] emptyState .Close h₁).1 rfl
  · exact ((claim3_failure_aborts_batch ⟨⟨0, 5⟩⟩ emptyState
      (.When [.merkleizedCase (.Notify .TrueObs) "h"] 10 .Close) []
      ⟨.INotify, none⟩ []).1 [] [] emptyState
      (.When [.merkleizedCase (.Notify .TrueObs) "h"] 10 .Close) h₂).2 rfl
  · exact (claim3_failure_aborts_batch ⟨⟨0, 5⟩⟩ emptyState
      (.When [] 3 .Close) [] ⟨.INotify, none⟩ []).2 hamb []

/-- C4: a Deposit case matches a DepositInput if and only if the party,
account and token are identical to those of the case and the amount Value of
the case, evaluated with evalValue in the current environment and state,
equals the declared quantity of the input exactly; any mismatch yields
NoMatch. -/
theorem claim4_deposit_match (env : Environment) (state : State)
    (accId₁ party₁ : Party) (token₁ : Token) (quantity : Int)
    (accId₂ party₂ : Party) (token₂ : Token) (value : Value) :
    ((applyAction env state (.IDeposit accId₁ party₁ token₁ quantity)
        (.Deposit accId₂ party₂ token₂ value)).isSome = true ↔
      (party₁ = party₂ ∧ accId₁ = accId₂ ∧ token₁ = token₂ ∧
        quantity = evalValue env state value)) ∧
    (∀ (cont : Contract) (disclosure : Option (String × Contract)),
      ¬ (party₁ = party₂ ∧ accId₁ = accId₂ ∧ token₁ = token₂ ∧
        quantity = evalValue env state value) →
      applyCases env state ⟨.IDeposit accId₁ party₁ token₁ quantity, disclosure⟩
        [.mkCase (.Deposit accId₂ party₂ token₂ value) cont] =
        .ApplyNoMatchError) := by
  constructor
  · rw [applyAction]
    split
    · rename_i hmatch
      split <;> simp [hmatch]
    · rename_i hmatch
      simp [hmatch]
  · intro cont disclosure hmatch
    rw [applyCases, caseAction]
    rw [applyAction]
    rw [if_neg hmatch]
    rw [applyCases]

/-- Witness for C4 at concrete inputs: a deposit of the declared quantity 100
matching the evaluated Constant 100 is accepted, and a declared quantity 99
against the same case is NoMatch. -/
theorem claim4_witness :
    (applyAction ⟨⟨0, 5⟩⟩ emptyState (.IDeposit alice alice lovelace 100)
      (.Deposit alice alice lovelace (.Constant 100))).isSome = true ∧
    applyCases ⟨⟨0, 5⟩⟩ emptyState ⟨.IDeposit alice alice lovelace 99, none⟩
      [.mkCase (.Deposit alice alice lovelace (.Constant 100)) .Close] =
      .ApplyNoMatchError := by
  constructor
  · exact (claim4_deposit_match ⟨⟨0, 5⟩⟩ emptyState alice alice lovelace 100
      alice alice lovelace (.Constant 100)).1.mpr ⟨rfl, rfl, rfl, rfl⟩
  · exact (claim4_deposit_match ⟨⟨0, 5⟩⟩ emptyState alice alice lovelace 99
      alice alice lovelace (.Constant 100)).2 .Close none (by
        intro h
        have := h.2.2.2
        simp [evalValue] at this)

/-- C5: a Notify case matches a NotifyInput if and only if evalObservation on
the Notify condition evaluates to true in the current environment and state;
if the observation is false the input yields NoMatch. -/
theorem claim5_notify_match (env : Environment) (state : State)
    (obs : Observation) :
    ((applyAction env state .INotify (.Notify obs)).isSome = true ↔
      evalObservation env state obs = true) ∧
    (∀ (cont : Contract) (disclosure : Option (String × Contract)),
      evalObservation env state obs = false →
      applyCases env state ⟨.INotify, disclosure⟩ [.mkCase (.Notify obs) cont] =
        .ApplyNoMatchError) := by
  constructor
  · rw [applyAction]
    split <;> simp [*]
  · intro cont disclosure hobs
    rw [applyCases, caseAction]
    rw [applyAction]
    rw [if_neg (by simp [hobs])]
    rw [applyCases]

/-- Witness for C5 at concrete inputs: a Notify with the true observation
matches, a Notify with the false observation is NoMatch. -/
theorem claim5_witness :
    (applyAction ⟨⟨0, 5⟩⟩ emptyState .INotify (.Notify .TrueObs)).isSome = true ∧
    applyCases ⟨⟨0, 5⟩⟩ emptyState ⟨.INotify, none⟩
      [.mkCase (.Notify .FalseObs) .Close] = .ApplyNoMatchError := by
  constructor
  · exact (claim5_notify_match ⟨⟨0, 5⟩⟩ emptyState .TrueObs).1.mpr rfl
  · exact (claim5_notify_match ⟨⟨0, 5⟩⟩ emptyState .FalseObs).2 .Close none rfl

/-- C6: the exact-divide variant of evalValue delegates to divide, and for
every dividend n and non-zero divisor d the quotient q = divide n d is the
integer nearest to the exact ratio with ties away from zero: the residue
n - d*q is at most half the divisor in absolute value, and at an exact half
the chosen multiple d*q is at least as far from zero as n (so the quotient is
never truncated toward zero nor floored); the concrete values 7/2 = 4,
-7/2 = -4 and -1/2 = -1 pin the rule down. -/
theorem claim6_divValue_rounding :
    (∀ (env : Environment) (state : State) (lhs rhs : Value),
      evalValue env state (.DivValue lhs rhs) =
        divide (evalValue env state lhs) (evalValue env state rhs)) ∧
    (∀ n d : Int, d ≠ 0 →
      2 * (n - d * divide n d).natAbs ≤ d.natAbs ∧
      (2 * (n - d * divide n d).natAbs = d.natAbs →
        n.natAbs ≤ (d * divide n d).natAbs)) ∧
    divide 7 2 = 4 ∧ divide (-7) 2 = -4 ∧ divide (-1) 2 = -1 := by
  refine ⟨?_, ?_, by decide, by decide, by decide⟩
  · intro env state lhs rhs
    rw [evalValue]
  · intro n d hd
    exact divide_nearest hd

/-- Witness for C6 at a concrete input: dividing 7 by 2 gives the nearest
rounding away from zero. -/
theorem claim6_witness :
    (2 : Int) ≠ 0 ∧
    (2 * ((7 : Int) - 2 * divide 7 2).natAbs ≤ (2 : Int).natAbs ∧
      (2 * ((7 : Int) - 2 * divide 7 2).natAbs = (2 : Int).natAbs →
        (7 : Int).natAbs ≤ ((2 : Int) * divide 7 2).natAbs)) :=
  ⟨by decide, claim6_divValue_rounding.2.1 7 2 (by decide)⟩

/-- C7: reduceContractUntilQuiescent is idempotent: applying it again to the
state and contract returned by a successful application yields zero
additional warnings, zero additional payments, the unchanged contract and
state, and no further step taken. -/
theorem claim7_reduce_idempotent (env : Environment) (state : State)
    (contract : Contract) (b : Bool) (ws : List ReduceWarning)
    (ps : List Payment) (s₁ : State) (c₁ : Contract)
    (h : reduceContractUntilQuiescent env state contract =
      .ContractQuiescent b ws ps s₁ c₁) :
    reduceContractUntilQuiescent env s₁ c₁ =
      .ContractQuiescent false [] [] s₁ c₁ :=
  reduce_of_notReduced (reduceLoop_quiescent h)

/-- Witness for C7 at a concrete input: a timed-out When reduces to Close in
one step, and reducing the result again changes nothing. -/
theorem claim7_witness :
    reduceContractUntilQuiescent ⟨⟨20, 30⟩⟩ emptyState (.When [] 10 .Close) =
      .ContractQuiescent true [] [] emptyState .Close ∧
    reduceContractUntilQuiescent ⟨⟨20, 30⟩⟩ emptyState .Close =
      .ContractQuiescent false [] [] emptyState .Close := by
  have h : reduceContractUntilQuiescent ⟨⟨20, 30⟩⟩ emptyState
      (.When [] 10 .Close) = .ContractQuiescent true [] [] emptyState .Close := by
    rw [reduceContractUntilQuiescent, reduceLoop_eq]
    have hstep : reduceContractStep ⟨⟨20, 30⟩⟩ emptyState
        (.When ([] : List (Case Contract)) 10 .Close) =
        .Reduced .ReduceNoWarning none emptyState .Close := rfl
    rw [hstep]
    dsimp only [appendWarning, appendEffect]
    rw [reduceLoop_eq]
    rfl
  exact ⟨h, claim7_reduce_idempotent ⟨⟨20, 30⟩⟩ emptyState (.When [] 10 .Close)
    true [] [] emptyState .Close h⟩

/-- C9: Blueprint.decode never returns a value: whatever the outer Metadata
codec does, the decode outcome is never a success; for every Metadata input
that passes the outer Metadata codec the inner validate unconditionally
throws "Not implemented"; and in particular the encode/decode round-trip
cannot succeed even on values produced by the Blueprint encode. -/
theorem claim9_blueprint_decode_never_succeeds :
    (∀ (T : Type) (outer : Metadata → DecodeOutcome Metadata)
      (value : Metadata) (t : T),
      blueprintDecode T outer value ≠ .success t) ∧
    (∀ (T : Type) (outer : Metadata → DecodeOutcome Metadata)
      (value m₁ : Metadata),
      outer value = .success m₁ →
      blueprintDecode T outer value = .thrown "Not implemented") ∧
    (∀ (T : Type) (outer : Metadata → DecodeOutcome Metadata)
      (params : List Metadatum) (t : T),
      blueprintDecode T outer (blueprintEncode params) ≠ .success t) := by
  refine ⟨?_, ?_, ?_⟩
  · intro T outer value t
    rw [blueprintDecode, pipeDecode]
    cases outer value <;> simp [blueprintInnerValidate]
  · intro T outer value m₁ h
    rw [blueprintDecode, pipeDecode, h]
    rfl
  · intro T outer params t
    rw [blueprintDecode, pipeDecode]
    cases outer (blueprintEncode params) <;> simp [blueprintInnerValidate]

/-- Witness for C9 at a concrete input: with an outer codec accepting its
input unchanged, decoding an encoded empty parameter list throws
"Not implemented". -/
theorem claim9_witness :
    blueprintDecode Unit (fun m => .success m) (blueprintEncode []) =
      .thrown "Not implemented" :=
  claim9_blueprint_decode_never_succeeds.2.1 Unit (fun m => .success m)
    (blueprintEncode []) (blueprintEncode []) rfl

/-- C10: the waitConfirmation of the browser CIP30 wallet adapter ignores its
txHash argument and, for every transaction hash, immediately settles to
Right(true) without querying the chain, so a caller awaiting confirmation
receives success regardless of the transaction. -/
theorem claim10_waitConfirmation_constant :
    ∀ txHash : String,
      waitConfirmation txHash = .right true ∧
      ∀ other : String, waitConfirmation txHash = waitConfirmation other := by
  intro txHash
  exact ⟨rfl, fun other => rfl⟩

end Marlowe
